import Mathlib

/-!
Shallow embedding of the `shastra` analysis layer
(`src/shastra/utils/data.py` and `src/shastra/utils/research.py`).

Modelling choices, stated once here:

* Cell values of the underlying astropy table are modelled by `Val`:
  either a string (primary-key columns) or an exact rational (numeric
  columns).  Floating-point rounding is not modelled; every claim below
  is about structural behaviour (ordering, cloning, filtering, error
  paths), not about rounding.
* A table is an ordered association list of named columns.  Indexing a
  missing column raises `KeyError`; `table[name] = col` replaces the
  column if the name exists, else appends it — as astropy does.
* Python objects of class `Data` are mutable and shared by reference:
  `Column.updatedData` assigns to `self.data.table`, which is visible
  through every other reference to the same `Data` object.  We therefore
  model the `Data` objects in a heap (`Heap := List DataObj`) and let a
  `ColumnHandle` store the index (`dataRef`) of its `Data` object, which
  is how Python references it.  A dangling index cannot arise from the
  source; heap lookups that miss are mapped to `PyErr.keyError`.
* Python exceptions are modelled with `Except PyErr`.  Methods that can
  mutate state return the heap and receiver alongside the result, so an
  exception raised before any write provably leaves both unchanged.
* Reading an attribute that the class does not define raises
  `AttributeError`; for `Research.plotAllStackedHistograms` we model the
  attribute lookup `self.plotHistogram` against the literal list of
  method names defined on the `Research` class.
-/

namespace Shastra

/-- Python exception kinds that the embedded code can raise. -/
inductive PyErr where
  | keyError
  | valueError
  | typeError
  | indexError
  | unboundLocal
  | attributeError
deriving DecidableEq

/-- A cell value of the table: a string (as in a primary-key column) or a
numeric value, modelled as an exact rational. -/
inductive Val where
  | str : String → Val
  | num : Rat → Val
deriving DecidableEq

/-- An astropy `Table`: an ordered association list of named columns. -/
structure Table where
  cols : List (String × List Val)
deriving DecidableEq

/-- Lookup of a named column in the column list: the first column with
that name, if any. -/
def lookupCol : List (String × List Val) → String → Option (List Val)
  | [], _ => none
  | p :: ps, n => if p.1 == n then some p.2 else lookupCol ps n

/-- Reading `table[name]`. -/
def Table.getCol (t : Table) (name : String) : Option (List Val) :=
  lookupCol t.cols name

/-- Update of the column list for `table[name] = vals`: replace the
column carrying that name if it exists (column names of an astropy table
are unique), else append a new column at the end. -/
def setColList : List (String × List Val) → String → List Val → List (String × List Val)
  | [], n, vs => [(n, vs)]
  | p :: ps, n, vs =>
    if p.1 == n then (n, vs) :: ps
    else p :: setColList ps n vs

/-- Writing `table[name] = vals` (astropy semantics: replace or append). -/
def Table.setCol (t : Table) (name : String) (vals : List Val) : Table :=
  ⟨setColList t.cols name vals⟩

/-- The row count of a table (`len(table)` in astropy: the common length
of its columns, read off the first column). -/
def Table.nRows (t : Table) : Nat :=
  match t.cols with
  | [] => 0
  | p :: _ => p.2.length

/-- The astropy invariant that all columns of a table have the same
length. -/
def Table.uniform (t : Table) : Prop :=
  ∀ p ∈ t.cols, p.2.length = t.nRows

instance (t : Table) : Decidable t.uniform :=
  inferInstanceAs (Decidable (∀ p ∈ t.cols, p.2.length = t.nRows))

/-- A `Data` object (`data.py`, class `Data`): a table, the primary-key
column name, and the trimmed primary-key values in row order. -/
structure DataObj where
  table : Table
  primaryKey : String
  primaryKeyList : List String
deriving DecidableEq

/-- The store of live `Data` objects; a Python reference to a `Data`
object is an index into this list. -/
abbrev Heap := List DataObj

/-- Reading `<data>.table[name]` through a reference: dereference the
`Data` object, then index the table.  A missing column is a `KeyError`;
a dangling reference cannot arise from the source and is mapped to
`KeyError` as well. -/
def readCol (h : Heap) (r : Nat) (name : String) : Except PyErr (List Val) :=
  match h[r]? with
  | none => .error .keyError
  | some d =>
    match d.table.getCol name with
    | none => .error .keyError
    | some vs => .ok vs

/-- Python's `str.strip()`: drop whitespace characters from both ends of
the string. -/
def pyStrip (s : String) : String :=
  ⟨((s.data.dropWhile Char.isWhitespace).reverse.dropWhile Char.isWhitespace).reverse⟩

/-- `x.strip()` applied to every entry of a primary-key column: succeeds
with the stripped strings when every entry is a string, else raises
`AttributeError` (numbers have no `.strip`). -/
def stripVals : List Val → Except PyErr (List String)
  | [] => .ok []
  | Val.str s :: rest =>
    match stripVals rest with
    | .error e => .error e
    | .ok tl => .ok (pyStrip s :: tl)
  | Val.num _ :: _ => .error .attributeError

/-- `Data.from_table(table, primaryKey)` (`data.py` lines 29-45): look up
the primary-key column (a `KeyError` if absent), strip each of its
values, and build the `Data` object. -/
def Data.from_table (table : Table) (primaryKey : String) : Except PyErr DataObj :=
  match table.getCol primaryKey with
  | none => .error .keyError
  | some col =>
    match stripVals col with
    | .error e => .error e
    | .ok pkl => .ok ⟨table, primaryKey, pkl⟩

/-- A `Column` object (`data.py`, class `Column`): a reference to its
`Data` object, the bound column name, and the cached `result` values. -/
structure ColumnHandle where
  dataRef : Nat
  columnName : String
  result : List Val
deriving DecidableEq

/-- The operand of a binary `Column` operation: another `Column` or a
numeric scalar (`isinstance(other, (int, float))`). -/
inductive Operand where
  | col : ColumnHandle → Operand
  | scalar : Rat → Operand
deriving DecidableEq

/-- `Column.newColumnName` (`data.py` lines 72-86): synthesize the
derived column name.  Python tests `if otherColumn:`, so an empty string
behaves like `None` (truthiness). -/
def ColumnHandle.newColumnName (c : ColumnHandle) (operation : String)
    (otherColumn : Option String) : String :=
  match otherColumn with
  | some oc =>
    if oc = "" then c.columnName ++ " " ++ operation
    else c.columnName ++ " " ++ operation ++ " " ++ oc
  | none => c.columnName ++ " " ++ operation

/-- `Column.updatedData` (`data.py` lines 88-100).  In the source,
`updated_data = self.data` aliases the same `Data` object, so
`updated_data.table = Table(self.data.table)` replaces the `table`
attribute of that shared object with a clone, and the new column is then
written into the clone; finally the receiver's `columnName` is
reassigned.  The receiver's cached `result` is not touched. -/
def ColumnHandle.updatedData (h : Heap) (c : ColumnHandle)
    (newColumnName : String) (result : List Val) : Heap × ColumnHandle :=
  match h[c.dataRef]? with
  | none => (h, c)
  | some d =>
    (h.set c.dataRef { d with table := d.table.setCol newColumnName result },
     { c with columnName := newColumnName })

/-- Element-wise numeric addition; any non-numeric operand raises a
`TypeError` (as the numpy ufunc does on string columns). -/
def valAdd : Val → Val → Except PyErr Val
  | Val.num a, Val.num b => .ok (Val.num (a + b))
  | _, _ => .error .typeError

/-- Element-wise numeric subtraction. -/
def valSub : Val → Val → Except PyErr Val
  | Val.num a, Val.num b => .ok (Val.num (a - b))
  | _, _ => .error .typeError

/-- Element-wise numeric multiplication. -/
def valMul : Val → Val → Except PyErr Val
  | Val.num a, Val.num b => .ok (Val.num (a * b))
  | _, _ => .error .typeError

/-- Element-wise numeric division.  The caller has already rejected zero
divisors, so the rational division here is never division by zero. -/
def valDiv : Val → Val → Except PyErr Val
  | Val.num a, Val.num b => .ok (Val.num (a / b))
  | _, _ => .error .typeError

/-- Element-wise exponentiation, modelled for integer exponents (the only
exponents expressible in the rational value model); `0 ** n` with `n < 0`
raises, as numpy integer power does. -/
def valPow : Val → Val → Except PyErr Val
  | Val.num a, Val.num b =>
    if b.den = 1 then
      if a = 0 ∧ b.num < 0 then .error .valueError
      else .ok (Val.num (a ^ b.num))
    else .error .typeError
  | _, _ => .error .typeError

/-- Element-wise `>` between two cells: numeric or string comparison;
mixed kinds raise `TypeError` (as numpy does). -/
def valGt : Val → Val → Except PyErr Bool
  | Val.num a, Val.num b => .ok (decide (b < a))
  | Val.str a, Val.str b => .ok (decide (b < a))
  | _, _ => .error .typeError

/-- Element-wise combination of two columns: the numpy broadcast error on
mismatched lengths is a `ValueError`. -/
def zipExcept {β : Type} (f : Val → Val → Except PyErr β) :
    List Val → List Val → Except PyErr (List β)
  | [], [] => .ok []
  | x :: xs, y :: ys =>
    match f x y with
    | .error e => .error e
    | .ok v =>
      match zipExcept f xs ys with
      | .error e => .error e
      | .ok vs => .ok (v :: vs)
  | _, _ => .error .valueError

/-- Broadcasting a scalar over a column: apply `f` to every cell. -/
def mapExcept {β : Type} (f : Val → Except PyErr β) :
    List Val → Except PyErr (List β)
  | [] => .ok []
  | x :: xs =>
    match f x with
    | .error e => .error e
    | .ok v =>
      match mapExcept f xs with
      | .error e => .error e
      | .ok vs => .ok (v :: vs)

/-- The five binary arithmetic operators of `Column`. -/
inductive ArithOp where
  | add
  | sub
  | mul
  | div
  | pow
deriving DecidableEq

/-- The operator symbol used in the synthesized column name. -/
def arithSym : ArithOp → String
  | .add => "+"
  | .sub => "-"
  | .mul => "*"
  | .div => "/"
  | .pow => "**"

/-- The element-wise operation of each operator. -/
def arithVal : ArithOp → Val → Val → Except PyErr Val
  | .add => valAdd
  | .sub => valSub
  | .mul => valMul
  | .div => valDiv
  | .pow => valPow

/-- The string `str(other)` rendering the operand into the synthesized
column name. -/
def operandName : Operand → String
  | .col oc => oc.columnName
  | .scalar q => toString q

/-- The head of `Column.__add__`/`__sub__`/`__mul__`/`__truediv__`/
`__pow__` (`data.py` lines 104-216): read the operand columns, perform
the division-by-zero check of `__truediv__` (`if np.any(other... == 0)`
for a column operand, `if other == 0` for a scalar — both before any
result is computed), combine element-wise, and synthesize the new column
name.  Returns the name/result pair or the raised exception. -/
def arithResult (op : ArithOp) (h : Heap) (c : ColumnHandle) (other : Operand) :
    Except PyErr (String × List Val) :=
  match other with
  | .col oc =>
    if op = .div then
      match readCol h oc.dataRef oc.columnName with
      | .error e => .error e
      | .ok rhs =>
        if rhs.contains (Val.num 0) then .error .valueError
        else
          match readCol h c.dataRef c.columnName with
          | .error e => .error e
          | .ok lhs =>
            match zipExcept (arithVal op) lhs rhs with
            | .error e => .error e
            | .ok result =>
              .ok (c.newColumnName (arithSym op) (some oc.columnName), result)
    else
      match readCol h c.dataRef c.columnName with
      | .error e => .error e
      | .ok lhs =>
        match readCol h oc.dataRef oc.columnName with
        | .error e => .error e
        | .ok rhs =>
          match zipExcept (arithVal op) lhs rhs with
          | .error e => .error e
          | .ok result =>
            .ok (c.newColumnName (arithSym op) (some oc.columnName), result)
  | .scalar q =>
    if op = .div ∧ q = 0 then .error .valueError
    else
      match readCol h c.dataRef c.columnName with
      | .error e => .error e
      | .ok lhs =>
        match mapExcept (fun v => arithVal op v (Val.num q)) lhs with
        | .error e => .error e
        | .ok result =>
          .ok (c.newColumnName (arithSym op) (some (toString q)), result)

/-- The shared tail of every binary arithmetic operator: call
`self.updatedData(newColumnName, result)` and then return
`Column(self.data, newColumnName, result)` — a new handle on the same
`Data` object, with the cached result supplied. -/
def finishArith (h : Heap) (c : ColumnHandle) (newName : String)
    (result : List Val) : Heap × ColumnHandle × Except PyErr ColumnHandle :=
  match ColumnHandle.updatedData h c newName result with
  | (h2, c2) => (h2, c2, .ok ⟨c2.dataRef, newName, result⟩)

/-- One binary arithmetic operator applied to a handle: returns the heap
after the call, the receiver after the call (its attributes may have been
reassigned), and either the returned new handle or the raised exception.
An exception propagates before `updatedData` runs, so on the error path
heap and receiver are the inputs unchanged. -/
def applyArith (op : ArithOp) (h : Heap) (c : ColumnHandle) (other : Operand) :
    Heap × ColumnHandle × Except PyErr ColumnHandle :=
  match arithResult op h c other with
  | .error e => (h, c, .error e)
  | .ok (newName, result) => finishArith h c newName result

/-- Keep the entries of `xs` at the positions where `mask` is `true`
(row masking of a single column). -/
def maskList {α : Type} : List α → List Bool → List α
  | x :: xs, b :: bs => if b then x :: maskList xs bs else maskList xs bs
  | _, _ => []

/-- `table[mask]`: every column masked by the same boolean row mask. -/
def Table.filterRows (t : Table) (mask : List Bool) : Table :=
  ⟨t.cols.map (fun p => (p.1, maskList p.2 mask))⟩

/-- `Column.__gt__` (`data.py` lines 261-280): compute the element-wise
boolean mask of `self.data.table[self.columnName] > other`, filter the
rows of the table by the mask, and build a new `Data` via
`Data.from_table(filtered, primaryKey=self.data.primaryKey)`.  The
method performs no assignment, so the heap and the receiver are returned
unchanged. -/
def ColumnHandle.gt (h : Heap) (c : ColumnHandle) (other : Operand) :
    Heap × ColumnHandle × Except PyErr DataObj :=
  (h, c,
    match h[c.dataRef]? with
    | none => .error .keyError
    | some d =>
      match d.table.getCol c.columnName with
      | none => .error .keyError
      | some lhs =>
        let maskE : Except PyErr (List Bool) :=
          match other with
          | .col oc =>
            match readCol h oc.dataRef oc.columnName with
            | .error e => .error e
            | .ok rhs => zipExcept valGt lhs rhs
          | .scalar q => mapExcept (fun v => valGt v (Val.num q)) lhs
        match maskE with
        | .error e => .error e
        | .ok mask => Data.from_table (d.table.filterRows mask) d.primaryKey)

/-- A `Sample` (`research.py`, class `Sample`): a name and an ordered
list of primary-key ids. -/
structure Sample where
  name : String
  ids : List String
deriving DecidableEq

/-- A `Research` object (`research.py`, class `Research`): a reference to
its `Data` object, the main sample, the control samples, and the
parameter map from names to `Column` handles. -/
structure Research where
  dataRef : Nat
  mainSample : Sample
  controls : List Sample
  parameters : List (String × ColumnHandle)
deriving DecidableEq

/-- The sample-name resolution of `Research.getValue` (`research.py`
lines 60-65): if the name equals the main sample's name take its ids;
otherwise scan all controls and take the ids of each matching control —
the loop has no `break`, so the LAST matching control wins; with no
match, `sampleList` stays unassigned (`none`). -/
def Research.resolveSample (r : Research) (sample : Sample) : Option (List String) :=
  if sample.name == r.mainSample.name then some r.mainSample.ids
  else r.controls.foldl
    (fun acc ctrl => if sample.name == ctrl.name then some ctrl.ids else acc) none

/-- The index-collection loop of `Research.getValue` (`research.py`
lines 66-68), with the running `enumerate` counter explicit: collect the
index of every primary key that appears in the sample's id list, in row
order. -/
def collectIndicesFrom (ids : List String) : Nat → List String → List Nat
  | _, [] => []
  | i, pk :: rest =>
    if ids.contains pk then i :: collectIndicesFrom ids (i + 1) rest
    else collectIndicesFrom ids (i + 1) rest

/-- The indices of the primary keys that appear in the id list. -/
def collectIndices (ids : List String) (pks : List String) : List Nat :=
  collectIndicesFrom ids 0 pks

/-- The final list comprehension of `Research.getValue` (`research.py`
line 69): `[parameterList[x] for x in indices]`, with an out-of-range
index raising `IndexError`. -/
def extractAt (vals : List Val) : List Nat → Except PyErr (List Val)
  | [] => .ok []
  | i :: rest =>
    match vals[i]? with
    | none => .error .indexError
    | some v =>
      match extractAt vals rest with
      | .error e => .error e
      | .ok vs => .ok (v :: vs)

/-- `Research.getValue` (`research.py` lines 45-70): read the primary-key
list, look up the parameter handle (`KeyError` when unbound) and its
column in the data's table (`KeyError` when absent), resolve the sample
name to an id list, collect the matching row indices, and extract the
column values at those indices.  When the primary-key list is empty the
loop body never runs, so nothing is collected and the empty list is
returned even when the sample name resolves to nothing; when it is
non-empty and the sample name did not resolve, the first membership test
reads the unassigned `sampleList` and raises `UnboundLocalError`. -/
def Research.getValue (h : Heap) (r : Research) (sample : Sample)
    (parameterName : String) : Except PyErr (List Val) :=
  match h[r.dataRef]? with
  | none => .error .keyError
  | some d =>
    match r.parameters.find? (fun q => q.1 == parameterName) with
    | none => .error .keyError
    | some p =>
      match d.table.getCol p.2.columnName with
      | none => .error .keyError
      | some parameterList =>
        match d.primaryKeyList, r.resolveSample sample with
        | [], _ => .ok []
        | _ :: _, none => .error .unboundLocal
        | pk :: rest, some ids =>
          extractAt parameterList (collectIndices ids (pk :: rest))

/-- The collected values in primary-key-scan order: the value at every
row index whose primary key appears in the id list, in dataset row
order. -/
def scanCollect (pks ids : List String) (vals : List Val) : List Val :=
  (collectIndices ids pks).filterMap (fun i => vals[i]?)

/-- The method names defined on the `Research` class (`research.py`);
attribute lookup of any other name on a `Research` instance raises
`AttributeError`. -/
def researchMethodNames : List String :=
  ["getValue", "printValue", "interval", "printStatistics", "printCorrelation",
   "printStatisticsAll", "printCorrelationAll", "plotSingleHistogram",
   "plotStackedHistogram", "plotAllStackedHistograms"]

/-- The loop of `Research.plotAllStackedHistograms` over the parameter
names: each iteration resolves the attribute `self.plotHistogram` before
calling it; if the class does not define it, `AttributeError` is raised
there and no plot is produced for that or any later parameter.  Returns
the list of parameters actually plotted and the raised error, if any. -/
def plotAllLoop : List String → List String × Option PyErr
  | [] => ([], none)
  | p :: rest =>
    if researchMethodNames.contains "plotHistogram" then
      match plotAllLoop rest with
      | (plots, err) => (p :: plots, err)
    else ([], some PyErr.attributeError)

/-- `Research.plotAllStackedHistograms` (`research.py` lines 225-234):
iterate over the keys of `self.parameters` and call
`self.plotHistogram(parameters, ...)` for each. -/
def Research.plotAllStackedHistograms (r : Research) : List String × Option PyErr :=
  plotAllLoop (r.parameters.map (fun p => p.1))

/-- The data-model invariant of claim C6: the primary-key list has one
entry per table row. -/
def DataInv (d : DataObj) : Prop :=
  d.primaryKeyList.length = d.table.nRows

/-! ### Concrete example objects used by witnesses and counterexamples -/

/-- A concrete table with primary keys `a, b, c` and numeric column
`x = 1, 2, 3` (the example of the specification). -/
def exTable : Table :=
  ⟨[("pk", [Val.str "a", Val.str "b", Val.str "c"]),
    ("x", [Val.num 1, Val.num 2, Val.num 3])]⟩

/-- The `Data` object built over `exTable`. -/
def exData : DataObj := ⟨exTable, "pk", ["a", "b", "c"]⟩

/-- A heap holding the single `Data` object `exData`. -/
def exHeap : Heap := [exData]

/-- A `Column` handle bound to column `x` of `exData`. -/
def exHandle : ColumnHandle := ⟨0, "x", [Val.num 1, Val.num 2, Val.num 3]⟩

/-- A second, earlier-built handle on the same `Data` object (bound to
the primary-key column). -/
def exEarlier : ColumnHandle := ⟨0, "pk", [Val.str "a", Val.str "b", Val.str "c"]⟩

/-- The sample of the specification example: ids `c, a` (in that order). -/
def exMain : Sample := ⟨"main", ["c", "a"]⟩

/-- A research context over `exData` with parameter `x`. -/
def exResearch : Research := ⟨0, exMain, [], [("x", exHandle)]⟩

/-- A sample whose name matches nothing in `exResearch`. -/
def exGhost : Sample := ⟨"ghost", []⟩

/-- A table holding a column `z` that contains a zero. -/
def zTable : Table :=
  ⟨[("pk", [Val.str "a"]), ("x", [Val.num 1]), ("z", [Val.num 0])]⟩

/-- The heap for the division-by-zero witness. -/
def zHeap : Heap := [⟨zTable, "pk", ["a"]⟩]

/-- A handle on column `x` of `zTable`. -/
def zHandle : ColumnHandle := ⟨0, "x", [Val.num 1]⟩

/-- A handle on the zero-containing column `z` of `zTable`. -/
def zZero : ColumnHandle := ⟨0, "z", [Val.num 0]⟩

/-- A `Data` object over a zero-row table. -/
def emptyData : DataObj := ⟨⟨[("pk", []), ("x", [])]⟩, "pk", []⟩

/-- A research context over the zero-row dataset. -/
def emptyResearch : Research := ⟨0, ⟨"main", []⟩, [], [("x", ⟨0, "x", []⟩)]⟩

/-- A sample whose id list is disjoint from the primary keys of `exData`. -/
def c8Sample : Sample := ⟨"m8", ["zz"]⟩

/-- A research context whose main sample has only unknown ids. -/
def c8Research : Research := ⟨0, c8Sample, [], [("x", exHandle)]⟩

/-! ### Helper lemmas about tables -/

theorem lookupCol_setColList_self (l : List (String × List Val)) (n : String) (vs : List Val) :
    lookupCol (setColList l n vs) n = some vs := by
  induction l with
  | nil => simp [setColList, lookupCol]
  | cons p ps ih =>
    by_cases hp : p.1 == n
    · simp [setColList, lookupCol, hp]
    · simp [setColList, lookupCol, hp, ih]

theorem getCol_setCol_self (t : Table) (n : String) (vs : List Val) :
    (t.setCol n vs).getCol n = some vs :=
  lookupCol_setColList_self t.cols n vs

theorem lookupCol_setColList_ne (l : List (String × List Val)) (n m : String)
    (vs : List Val) (hne : m ≠ n) :
    lookupCol (setColList l n vs) m = lookupCol l m := by
  have hnm : (n == m) = false := beq_eq_false_iff_ne.mpr (fun he => hne he.symm)
  induction l with
  | nil => simp [setColList, lookupCol, hnm]
  | cons p ps ih =>
    by_cases hp : (p.1 == n) = true
    · have hp' : p.1 = n := by simpa using hp
      have hpm : (p.1 == m) = false := by
        rw [hp']
        exact hnm
      simp [setColList, lookupCol, hp, hnm, hpm]
    · have hp2 : (p.1 == n) = false := by simpa using hp
      by_cases hm : (p.1 == m) = true
      · simp [setColList, lookupCol, hp2, hm]
      · have hm2 : (p.1 == m) = false := by simpa using hm
        simp [setColList, lookupCol, hp2, hm2, ih]

theorem getCol_setCol_ne (t : Table) (n m : String) (vs : List Val) (hne : m ≠ n) :
    (t.setCol n vs).getCol m = t.getCol m :=
  lookupCol_setColList_ne t.cols n m vs hne

theorem lookupCol_mem (l : List (String × List Val)) (n : String) (vs : List Val)
    (h : lookupCol l n = some vs) : (n, vs) ∈ l := by
  induction l with
  | nil => simp [lookupCol] at h
  | cons p ps ih =>
    by_cases hp : (p.1 == n) = true
    · have hp' : p.1 = n := by simpa using hp
      have h2 : p.2 = vs := by simpa [lookupCol, hp] using h
      have hpe : p = (n, vs) := by
        cases p with
        | mk a b => simp_all
      rw [← hpe]
      exact List.mem_cons_self _ _
    · have hp2 : (p.1 == n) = false := by simpa using hp
      simp only [lookupCol, hp2, Bool.false_eq_true, if_false] at h
      exact List.mem_cons_of_mem _ (ih h)

theorem getCol_mem (t : Table) (n : String) (vs : List Val)
    (h : t.getCol n = some vs) : (n, vs) ∈ t.cols :=
  lookupCol_mem t.cols n vs h

theorem getCol_length_of_uniform (t : Table) (n : String) (vs : List Val)
    (hu : t.uniform) (h : t.getCol n = some vs) : vs.length = t.nRows :=
  hu (n, vs) (getCol_mem t n vs h)

theorem mem_setColList (l : List (String × List Val)) (n : String) (vs : List Val)
    (q : String × List Val) (hq : q ∈ setColList l n vs) :
    q = (n, vs) ∨ q ∈ l := by
  induction l with
  | nil => simpa [setColList] using hq
  | cons p ps ih =>
    by_cases hp : p.1 == n
    · simp only [setColList, if_pos hp, List.mem_cons] at hq
      rcases hq with h1 | h2
      · exact Or.inl h1
      · exact Or.inr (List.mem_cons_of_mem _ h2)
    · simp only [setColList, if_neg hp, List.mem_cons] at hq
      rcases hq with h1 | h2
      · exact Or.inr (by simp [List.mem_cons, h1])
      · rcases ih h2 with h3 | h4
        · exact Or.inl h3
        · exact Or.inr (List.mem_cons_of_mem _ h4)

theorem nRows_setCol (t : Table) (n : String) (vs : List Val)
    (h : vs.length = t.nRows) : (t.setCol n vs).nRows = t.nRows := by
  unfold Table.setCol
  cases hc : t.cols with
  | nil =>
    simp only [Table.nRows, hc] at h ⊢
    simpa [setColList] using h
  | cons p ps =>
    by_cases hp : (p.1 == n) = true
    · simp only [Table.nRows, hc] at h ⊢
      simp [setColList, hp, h]
    · have hp2 : (p.1 == n) = false := by simpa using hp
      simp [setColList, Table.nRows, hc, hp2]

theorem uniform_setCol (t : Table) (n : String) (vs : List Val)
    (hu : t.uniform) (h : vs.length = t.nRows) : (t.setCol n vs).uniform := by
  intro q hq
  rw [nRows_setCol t n vs h]
  rcases mem_setColList t.cols n vs q hq with h1 | h2
  · rw [h1]
    exact h
  · exact hu q h2

/-! ### Helper lemmas about element-wise operations -/

theorem zipExcept_ok_length {β : Type} (f : Val → Val → Except PyErr β)
    (xs ys : List Val) (r : List β) (h : zipExcept f xs ys = .ok r) :
    r.length = xs.length ∧ xs.length = ys.length := by
  induction xs generalizing ys r with
  | nil =>
    cases ys with
    | nil =>
      simp only [zipExcept, Except.ok.injEq] at h
      simp [← h]
    | cons y ys => simp [zipExcept] at h
  | cons x xs ih =>
    cases ys with
    | nil => simp [zipExcept] at h
    | cons y ys =>
      simp only [zipExcept] at h
      cases hf : f x y with
      | error e => rw [hf] at h; exact absurd h (by simp)
      | ok v =>
        rw [hf] at h
        cases hr : zipExcept f xs ys with
        | error e => rw [hr] at h; exact absurd h (by simp)
        | ok vs =>
          rw [hr] at h
          simp only [Except.ok.injEq] at h
          rcases ih ys vs hr with ⟨h1, h2⟩
          simp [← h, h1, h2]

theorem mapExcept_ok_length {β : Type} (f : Val → Except PyErr β)
    (xs : List Val) (r : List β) (h : mapExcept f xs = .ok r) :
    r.length = xs.length := by
  induction xs generalizing r with
  | nil =>
    simp only [mapExcept, Except.ok.injEq] at h
    simp [← h]
  | cons x xs ih =>
    simp only [mapExcept] at h
    cases hf : f x with
    | error e => rw [hf] at h; exact absurd h (by simp)
    | ok v =>
      rw [hf] at h
      cases hr : mapExcept f xs with
      | error e => rw [hr] at h; exact absurd h (by simp)
      | ok vs =>
        rw [hr] at h
        simp only [Except.ok.injEq] at h
        simp [← h, ih vs hr]

theorem zipExcept_valAdd_num (qs1 qs2 : List Rat) (hl : qs1.length = qs2.length) :
    zipExcept valAdd (qs1.map Val.num) (qs2.map Val.num) =
      .ok ((List.zipWith (fun a b => a + b) qs1 qs2).map Val.num) := by
  induction qs1 generalizing qs2 with
  | nil =>
    cases qs2 with
    | nil => simp [zipExcept]
    | cons q qs => simp at hl
  | cons q qs ih =>
    cases qs2 with
    | nil => simp at hl
    | cons r rs =>
      simp only [List.length_cons, Nat.succ.injEq] at hl
      simp [zipExcept, valAdd, ih rs hl]

theorem mapExcept_valGt_num (s : Rat) (qs : List Rat) :
    mapExcept (fun v => valGt v (Val.num s)) (qs.map Val.num) =
      .ok (qs.map (fun q => decide (s < q))) := by
  induction qs with
  | nil => simp [mapExcept]
  | cons q qs ih =>
    have hv : valGt (Val.num q) (Val.num s) = Except.ok (decide (s < q)) := rfl
    simp only [List.map_cons, mapExcept, hv, ih]

/-! ### Helper lemmas about masking, stripping and row filtering -/

theorem maskList_sublist {α : Type} (xs : List α) (bs : List Bool) :
    (maskList xs bs).Sublist xs := by
  induction xs generalizing bs with
  | nil => cases bs <;> simp [maskList]
  | cons x xs ih =>
    cases bs with
    | nil => simp [maskList]
    | cons b bs =>
      cases b with
      | true => simpa [maskList] using List.Sublist.cons₂ x (ih bs)
      | false => simpa [maskList] using List.Sublist.cons x (ih bs)

theorem maskList_length {α : Type} (xs : List α) (bs : List Bool)
    (h : xs.length = bs.length) :
    (maskList xs bs).length = bs.countP id := by
  induction xs generalizing bs with
  | nil =>
    cases bs with
    | nil => simp [maskList]
    | cons b bs => simp at h
  | cons x xs ih =>
    cases bs with
    | nil => simp at h
    | cons b bs =>
      simp only [List.length_cons, Nat.succ.injEq] at h
      cases b with
      | true => simp [maskList, List.countP_cons, ih bs h]
      | false => simp [maskList, List.countP_cons, ih bs h]

theorem stripVals_ok_length (col : List Val) (l : List String)
    (h : stripVals col = .ok l) : l.length = col.length := by
  induction col generalizing l with
  | nil =>
    simp only [stripVals, Except.ok.injEq] at h
    simp [← h]
  | cons v vs ih =>
    cases v with
    | str s =>
      simp only [stripVals] at h
      cases hr : stripVals vs with
      | error e => rw [hr] at h; exact absurd h (by simp)
      | ok tl =>
        rw [hr] at h
        simp only [Except.ok.injEq] at h
        simp [← h, ih tl hr]
    | num q => simp [stripVals] at h

theorem stripVals_maskList (col : List Val) (l : List String) (bs : List Bool)
    (h : stripVals col = .ok l) :
    stripVals (maskList col bs) = .ok (maskList l bs) := by
  induction col generalizing l bs with
  | nil =>
    simp only [stripVals, Except.ok.injEq] at h
    cases bs <;> simp [maskList, stripVals, ← h]
  | cons v vs ih =>
    cases v with
    | str s =>
      simp only [stripVals] at h
      cases hr : stripVals vs with
      | error e => rw [hr] at h; exact absurd h (by simp)
      | ok tl =>
        rw [hr] at h
        simp only [Except.ok.injEq] at h
        cases bs with
        | nil => simp [maskList, stripVals]
        | cons b bs =>
          cases b with
          | true =>
            rw [← h]
            simp [maskList, stripVals, ih tl bs hr]
          | false =>
            rw [← h]
            simp [maskList, ih tl bs hr]
    | num q => simp [stripVals] at h

theorem lookupCol_map_mask (l : List (String × List Val)) (n : String)
    (vs : List Val) (mask : List Bool) (h : lookupCol l n = some vs) :
    lookupCol (l.map (fun p => (p.1, maskList p.2 mask))) n = some (maskList vs mask) := by
  induction l with
  | nil => simp [lookupCol] at h
  | cons p ps ih =>
    by_cases hp : (p.1 == n) = true
    · have h2 : p.2 = vs := by simpa [lookupCol, hp] using h
      simp [lookupCol, hp, h2]
    · have hp2 : (p.1 == n) = false := by simpa using hp
      simp only [lookupCol, hp2, Bool.false_eq_true, if_false] at h
      simpa [lookupCol, hp2] using ih h

theorem getCol_filterRows (t : Table) (n : String) (vs : List Val) (mask : List Bool)
    (h : t.getCol n = some vs) :
    (t.filterRows mask).getCol n = some (maskList vs mask) :=
  lookupCol_map_mask t.cols n vs mask h

theorem nRows_filterRows (t : Table) (mask : List Bool)
    (hu : t.uniform) (hm : mask.length = t.nRows) :
    (t.filterRows mask).nRows = mask.countP id := by
  unfold Table.filterRows
  cases hc : t.cols with
  | nil =>
    have h0 : t.nRows = 0 := by simp [Table.nRows, hc]
    rw [h0] at hm
    have hm0 : mask = [] := List.eq_nil_of_length_eq_zero hm
    simp [Table.nRows, hc, hm0]
  | cons p ps =>
    have hl : p.2.length = t.nRows := hu p (by rw [hc]; exact List.mem_cons_self _ _)
    simp only [Table.nRows, hc, List.map_cons]
    exact maskList_length p.2 mask (by rw [hl, hm])

theorem uniform_filterRows (t : Table) (mask : List Bool)
    (hu : t.uniform) (hm : mask.length = t.nRows) :
    (t.filterRows mask).uniform := by
  intro q hq
  rw [nRows_filterRows t mask hu hm]
  unfold Table.filterRows at hq
  rcases List.mem_map.mp hq with ⟨p, hp, hpe⟩
  rw [← hpe]
  exact maskList_length p.2 mask (by rw [hu p hp, hm])

/-! ### Helper lemmas about index collection and value extraction -/

theorem collectIndicesFrom_lt (ids : List String) (pks : List String) (i : Nat)
    (j : Nat) (hj : j ∈ collectIndicesFrom ids i pks) : j < i + pks.length := by
  induction pks generalizing i with
  | nil => simp [collectIndicesFrom] at hj
  | cons pk rest ih =>
    simp only [collectIndicesFrom] at hj
    by_cases hc : ids.contains pk
    · rw [if_pos hc] at hj
      rcases List.mem_cons.mp hj with h1 | h2
      · rw [h1]
        simp only [List.length_cons]
        omega
      · have := ih (i + 1) h2
        simp only [List.length_cons]
        omega
    · rw [if_neg hc] at hj
      have := ih (i + 1) hj
      simp only [List.length_cons]
      omega

theorem extractAt_ok_of_bounded (vals : List Val) (idxs : List Nat)
    (hb : ∀ i ∈ idxs, i < vals.length) :
    extractAt vals idxs = .ok (idxs.filterMap (fun i => vals[i]?)) := by
  induction idxs with
  | nil => simp [extractAt]
  | cons i rest ih =>
    have hi : i < vals.length := hb i (List.mem_cons_self _ _)
    rcases List.getElem?_eq_some.mpr ⟨hi, rfl⟩ with hv
    simp only [extractAt, hv, List.filterMap_cons]
    rw [ih (fun j hj => hb j (List.mem_cons_of_mem _ hj))]

theorem collectIndicesFrom_cons_not_mem (ids : List String) (pks : List String)
    (e : String) (he : ∀ pk ∈ pks, pk ≠ e) (i : Nat) :
    collectIndicesFrom (e :: ids) i pks = collectIndicesFrom ids i pks := by
  induction pks generalizing i with
  | nil => simp [collectIndicesFrom]
  | cons pk rest ih =>
    have hpe : pk ≠ e := he pk (List.mem_cons_self _ _)
    have hcons : (e :: ids).contains pk = ids.contains pk := by
      simp only [List.contains_cons]
      rw [beq_eq_false_iff_ne.mpr hpe, Bool.false_or]
    simp only [collectIndicesFrom, hcons]
    rw [ih (fun p hp => he p (List.mem_cons_of_mem _ hp))]

theorem collectIndicesFrom_disjoint (ids : List String) (pks : List String)
    (hd : ∀ pk ∈ pks, ¬ pk ∈ ids) (i : Nat) :
    collectIndicesFrom ids i pks = [] := by
  induction pks generalizing i with
  | nil => simp [collectIndicesFrom]
  | cons pk rest ih =>
    have hc : ids.contains pk = false := by
      simpa using hd pk (List.mem_cons_self _ _)
    simp only [collectIndicesFrom, hc, Bool.false_eq_true, if_false]
    exact ih (fun p hp => hd p (List.mem_cons_of_mem _ hp)) (i + 1)

theorem resolveSample_eq_none (r : Research) (sample : Sample)
    (hm : sample.name ≠ r.mainSample.name)
    (hc : ∀ ctrl ∈ r.controls, sample.name ≠ ctrl.name) :
    r.resolveSample sample = none := by
  unfold Research.resolveSample
  rw [if_neg (by simpa using hm)]
  have aux : ∀ (l : List Sample), (∀ ctrl ∈ l, sample.name ≠ ctrl.name) →
      l.foldl (fun acc ctrl => if sample.name == ctrl.name then some ctrl.ids else acc)
        none = none := by
    intro l
    induction l with
    | nil => intro _; rfl
    | cons s ss ih =>
      intro hl
      have hs : (sample.name == s.name) = false :=
        beq_eq_false_iff_ne.mpr (hl s (List.mem_cons_self _ _))
      simp only [List.foldl_cons, hs, Bool.false_eq_true, if_false]
      exact ih (fun c hcm => hl c (List.mem_cons_of_mem _ hcm))
  exact aux r.controls hc

theorem getValue_ok_scan (h : Heap) (r : Research) (sample : Sample)
    (parameterName : String) (d : DataObj) (p : String × ColumnHandle)
    (vals : List Val) (ids : List String)
    (hd : h[r.dataRef]? = some d)
    (hp : r.parameters.find? (fun q => q.1 == parameterName) = some p)
    (hc : d.table.getCol p.2.columnName = some vals)
    (hs : r.resolveSample sample = some ids)
    (hl : d.primaryKeyList.length ≤ vals.length) :
    Research.getValue h r sample parameterName =
      .ok (scanCollect d.primaryKeyList ids vals) := by
  unfold Research.getValue
  simp only [hd, hp, hc, hs]
  cases hpk : d.primaryKeyList with
  | nil => simp [scanCollect, collectIndices, collectIndicesFrom]
  | cons pk rest =>
    have hb : ∀ i ∈ collectIndices ids (pk :: rest), i < vals.length := by
      intro i hi
      have h2 := collectIndicesFrom_lt ids (pk :: rest) 0 i hi
      rw [hpk] at hl
      simp only [List.length_cons] at hl h2
      omega
    show extractAt vals (collectIndices ids (pk :: rest)) =
      Except.ok (scanCollect (pk :: rest) ids vals)
    rw [extractAt_ok_of_bounded vals _ hb]
    rfl

/-! ### Structural lemmas about the arithmetic operators -/

theorem readCol_ok (h : Heap) (r : Nat) (n : String) (vs : List Val)
    (hr : readCol h r n = .ok vs) :
    ∃ d, h[r]? = some d ∧ d.table.getCol n = some vs := by
  unfold readCol at hr
  split at hr
  · exact absurd hr (by simp)
  · rename_i d hd2
    split at hr
    · exact absurd hr (by simp)
    · rename_i vs2 hc2
      simp only [Except.ok.injEq] at hr
      exact ⟨d, hd2, by rw [hc2, hr]⟩

theorem newColumnName_length (c : ColumnHandle) (operation : String)
    (oc : Option String) :
    c.columnName.length < (c.newColumnName operation oc).length := by
  have h1 : (" " : String).length = 1 := rfl
  unfold ColumnHandle.newColumnName
  cases oc with
  | none =>
    simp only [String.length_append, h1]
    omega
  | some s =>
    by_cases hs : s = ""
    · simp only [if_pos hs, String.length_append, h1]
      omega
    · simp only [if_neg hs, String.length_append, h1]
      omega

theorem newColumnName_ne (c : ColumnHandle) (operation : String)
    (oc : Option String) : c.newColumnName operation oc ≠ c.columnName := by
  intro he
  have hlt := newColumnName_length c operation oc
  rw [he] at hlt
  omega

theorem arithResult_ok_parts (op : ArithOp) (h : Heap) (c : ColumnHandle)
    (other : Operand) (name : String) (result : List Val)
    (hr : arithResult op h c other = .ok (name, result)) :
    name = c.newColumnName (arithSym op) (some (operandName other)) ∧
    ∃ lhs, readCol h c.dataRef c.columnName = .ok lhs ∧ result.length = lhs.length := by
  cases other with
  | col oc =>
    simp only [arithResult] at hr
    split at hr
    · split at hr
      · exact absurd hr (by simp)
      · rename_i rhs h1
        split at hr
        · exact absurd hr (by simp)
        · split at hr
          · exact absurd hr (by simp)
          · rename_i lhs h2
            split at hr
            · exact absurd hr (by simp)
            · rename_i res h3
              simp only [Except.ok.injEq, Prod.mk.injEq] at hr
              refine ⟨hr.1.symm, lhs, h2, ?_⟩
              rw [← hr.2]
              exact (zipExcept_ok_length _ lhs rhs res h3).1
    · split at hr
      · exact absurd hr (by simp)
      · rename_i lhs h2
        split at hr
        · exact absurd hr (by simp)
        · rename_i rhs h1
          split at hr
          · exact absurd hr (by simp)
          · rename_i res h3
            simp only [Except.ok.injEq, Prod.mk.injEq] at hr
            refine ⟨hr.1.symm, lhs, h2, ?_⟩
            rw [← hr.2]
            exact (zipExcept_ok_length _ lhs rhs res h3).1
  | scalar q =>
    simp only [arithResult] at hr
    split at hr
    · exact absurd hr (by simp)
    · split at hr
      · exact absurd hr (by simp)
      · rename_i lhs h2
        split at hr
        · exact absurd hr (by simp)
        · rename_i res h3
          simp only [Except.ok.injEq, Prod.mk.injEq] at hr
          refine ⟨hr.1.symm, lhs, h2, ?_⟩
          rw [← hr.2]
          exact mapExcept_ok_length _ lhs res h3

theorem applyArith_ok (op : ArithOp) (h : Heap) (c : ColumnHandle)
    (other : Operand) (h' : Heap) (c' : ColumnHandle) (nc : ColumnHandle)
    (hs : applyArith op h c other = (h', c', .ok nc)) :
    ∃ d name result,
      arithResult op h c other = .ok (name, result) ∧
      h[c.dataRef]? = some d ∧
      h' = h.set c.dataRef { d with table := d.table.setCol name result } ∧
      c' = { c with columnName := name } ∧
      nc = ⟨c.dataRef, name, result⟩ := by
  unfold applyArith at hs
  split at hs
  · exact absurd hs (by simp)
  · rename_i newName result2 heq
    obtain ⟨hname, lhs, hread, hlen⟩ := arithResult_ok_parts op h c other newName result2 heq
    obtain ⟨d, hd, hcol⟩ := readCol_ok h c.dataRef c.columnName lhs hread
    unfold finishArith ColumnHandle.updatedData at hs
    rw [hd] at hs
    simp only [Prod.mk.injEq, Except.ok.injEq] at hs
    exact ⟨d, newName, result2, heq, hd, hs.1.symm, hs.2.1.symm, hs.2.2.symm⟩

theorem applyArith_error (op : ArithOp) (h : Heap) (c : ColumnHandle)
    (other : Operand) (e : PyErr)
    (hr : arithResult op h c other = .error e) :
    applyArith op h c other = (h, c, .error e) := by
  unfold applyArith
  rw [hr]

/-! ### Structural lemmas about `from_table` and the comparison filter -/

theorem from_table_ok (t : Table) (pk : String) (d : DataObj)
    (hf : Data.from_table t pk = .ok d) :
    ∃ col, t.getCol pk = some col ∧ stripVals col = .ok d.primaryKeyList ∧
      d.table = t ∧ d.primaryKey = pk := by
  unfold Data.from_table at hf
  split at hf
  · exact absurd hf (by simp)
  · rename_i col hc
    split at hf
    · exact absurd hf (by simp)
    · rename_i pkl hsv
      simp only [Except.ok.injEq] at hf
      exact ⟨col, hc, by rw [hsv, ← hf], by rw [← hf], by rw [← hf]⟩

theorem from_table_DataInv (t : Table) (pk : String) (d : DataObj)
    (hu : t.uniform) (hf : Data.from_table t pk = .ok d) :
    DataInv d ∧ d.table.uniform := by
  obtain ⟨col, hc, hsv, hdt, _⟩ := from_table_ok t pk d hf
  constructor
  · unfold DataInv
    rw [hdt]
    rw [stripVals_ok_length col d.primaryKeyList hsv]
    exact getCol_length_of_uniform t pk col hu hc
  · rw [hdt]
    exact hu

theorem gt_ok_parts (h : Heap) (c : ColumnHandle) (other : Operand)
    (dres : DataObj)
    (hres : (ColumnHandle.gt h c other).2.2 = .ok dres) :
    ∃ d lhs mask, h[c.dataRef]? = some d ∧
      d.table.getCol c.columnName = some lhs ∧
      mask.length = lhs.length ∧
      Data.from_table (d.table.filterRows mask) d.primaryKey = .ok dres := by
  unfold ColumnHandle.gt at hres
  simp only at hres
  split at hres
  · exact absurd hres (by simp)
  · rename_i d hd
    split at hres
    · exact absurd hres (by simp)
    · rename_i lhs hc
      split at hres
      · exact absurd hres (by simp)
      · rename_i mask hmask
        refine ⟨d, lhs, mask, hd, hc, ?_, hres⟩
        cases other with
        | col oc =>
          simp only at hmask
          split at hmask
          · exact absurd hmask (by simp)
          · rename_i rhs h1
            exact (zipExcept_ok_length _ lhs rhs mask hmask).1
        | scalar q =>
          simp only at hmask
          exact mapExcept_ok_length _ lhs mask hmask

/-! ### Claim theorems -/

/-- C1: for every dataset, bound parameter and resolvable sample,
`Research.getValue` returns the parameter values collected by scanning
the dataset's primary-key list in row order, taking the value at every
index whose key appears in the sample's id list — output in dataset row
order (`scanCollect`), not in the sample's `ids` order. -/
theorem c1_getValue_primary_key_scan_order
    (h : Heap) (r : Research) (sample : Sample) (parameterName : String)
    (d : DataObj) (p : String × ColumnHandle) (vals : List Val) (ids : List String)
    (hd : h[r.dataRef]? = some d)
    (hp : r.parameters.find? (fun q => q.1 == parameterName) = some p)
    (hc : d.table.getCol p.2.columnName = some vals)
    (hs : r.resolveSample sample = some ids)
    (hl : d.primaryKeyList.length ≤ vals.length) :
    Research.getValue h r sample parameterName =
      .ok (scanCollect d.primaryKeyList ids vals) :=
  getValue_ok_scan h r sample parameterName d p vals ids hd hp hc hs hl

/-- C1 witness: the specification example.  Primary keys `a, b, c`,
column `x = 1, 2, 3`, sample ids `c, a`: the result is `[1, 3]`
(dataset row order), not `[3, 1]` (sample order). -/
theorem c1_witness :
    Research.getValue exHeap exResearch exMain "x" = .ok [Val.num 1, Val.num 3] :=
  (c1_getValue_primary_key_scan_order exHeap exResearch exMain "x" exData
    ("x", exHandle) [Val.num 1, Val.num 2, Val.num 3] ["c", "a"]
    rfl rfl rfl rfl (by decide)).trans rfl

/-- C7 counterexample: a research context over a dataset with an empty
primary-key list.  The sample name `ghost` matches neither the main
sample (`main`) nor any control (there are none), yet `getValue` returns
the empty list — a handled, empty result — instead of failing with the
unbound-variable error the claim asserts for every context. -/
theorem c7_counterexample :
    exGhost.name ≠ emptyResearch.mainSample.name ∧
    emptyResearch.controls = [] ∧
    Research.getValue [emptyData] emptyResearch exGhost "x" = .ok [] :=
  ⟨by decide, rfl, rfl⟩

/-- C7 amended: provided the parameter name is bound, its column exists
and the dataset's primary-key list is non-empty, a sample name matching
neither the main sample nor any control makes `getValue` fail with the
unhandled unbound-local error (not a handled not-found error, not an
empty result). -/
theorem c7_unmatched_sample_unbound
    (h : Heap) (r : Research) (sample : Sample) (parameterName : String)
    (d : DataObj) (p : String × ColumnHandle) (vals : List Val)
    (hd : h[r.dataRef]? = some d)
    (hp : r.parameters.find? (fun q => q.1 == parameterName) = some p)
    (hc : d.table.getCol p.2.columnName = some vals)
    (hne : sample.name ≠ r.mainSample.name)
    (hctrl : ∀ ctrl ∈ r.controls, sample.name ≠ ctrl.name)
    (hpk : d.primaryKeyList ≠ []) :
    Research.getValue h r sample parameterName = .error .unboundLocal := by
  unfold Research.getValue
  simp only [hd, hp, hc, resolveSample_eq_none r sample hne hctrl]
  cases hpk2 : d.primaryKeyList with
  | nil => exact absurd hpk2 hpk
  | cons pk rest => rfl

/-- C7 witness: on the non-empty example dataset, the unmatched sample
name `ghost` produces the unbound-local failure. -/
theorem c7_witness :
    Research.getValue exHeap exResearch exGhost "x" = .error .unboundLocal :=
  c7_unmatched_sample_unbound exHeap exResearch exGhost "x" exData
    ("x", exHandle) [Val.num 1, Val.num 2, Val.num 3]
    rfl rfl rfl (by decide) (by decide) (by decide)

/-- C8: sample ids that do not appear in the dataset's primary-key list
are silently excluded: `getValue` raises no error for them and returns
exactly the values at rows whose keys are in the id list; prepending an
unknown id changes nothing, and an id list disjoint from the primary
keys yields the empty list. -/
theorem c8_unknown_ids_silently_excluded
    (h : Heap) (r : Research) (sample : Sample) (parameterName : String)
    (d : DataObj) (p : String × ColumnHandle) (vals : List Val) (ids : List String)
    (hd : h[r.dataRef]? = some d)
    (hp : r.parameters.find? (fun q => q.1 == parameterName) = some p)
    (hc : d.table.getCol p.2.columnName = some vals)
    (hs : r.resolveSample sample = some ids)
    (hl : d.primaryKeyList.length ≤ vals.length) :
    Research.getValue h r sample parameterName =
      .ok (scanCollect d.primaryKeyList ids vals) ∧
    (∀ e, ¬ e ∈ d.primaryKeyList →
      scanCollect d.primaryKeyList (e :: ids) vals =
        scanCollect d.primaryKeyList ids vals) ∧
    ((∀ k ∈ d.primaryKeyList, ¬ k ∈ ids) →
      Research.getValue h r sample parameterName = .ok []) := by
  have hmain := getValue_ok_scan h r sample parameterName d p vals ids hd hp hc hs hl
  refine ⟨hmain, ?_, ?_⟩
  · intro e he
    unfold scanCollect collectIndices
    rw [collectIndicesFrom_cons_not_mem ids d.primaryKeyList e
      (fun pk hpk hpe => he (hpe ▸ hpk)) 0]
  · intro hdisj
    rw [hmain]
    unfold scanCollect collectIndices
    rw [collectIndicesFrom_disjoint ids d.primaryKeyList hdisj 0]
    rfl

/-- C8 witness: a sample whose only id `zz` appears nowhere among the
primary keys `a, b, c` extracts without error and yields the empty
list. -/
theorem c8_witness :
    Research.getValue exHeap c8Research c8Sample "x" = .ok [] :=
  ((c8_unknown_ids_silently_excluded exHeap c8Research c8Sample "x" exData
    ("x", exHandle) [Val.num 1, Val.num 2, Val.num 3] ["zz"]
    rfl rfl rfl rfl (by decide)).1).trans rfl

/-- C10: for every research context with a non-empty parameter map,
`plotAllStackedHistograms` resolves the attribute `self.plotHistogram`,
which the `Research` class does not define, so the call fails with an
attribute error on the first parameter and produces no plots. -/
theorem c10_plotAll_missing_method (r : Research) (hne : r.parameters ≠ []) :
    Research.plotAllStackedHistograms r = ([], some PyErr.attributeError) := by
  have hcontains : researchMethodNames.contains "plotHistogram" = false := by decide
  unfold Research.plotAllStackedHistograms
  cases hp : r.parameters with
  | nil => exact absurd hp hne
  | cons p ps =>
    simp only [List.map_cons, plotAllLoop, hcontains, Bool.false_eq_true, if_false]

/-- C10 witness: the example context has one parameter and the call
fails with the attribute error, plotting nothing. -/
theorem c10_witness :
    Research.plotAllStackedHistograms exResearch = ([], some PyErr.attributeError) :=
  c10_plotAll_missing_method exResearch (by decide)

/-- C2: dividing a column handle by the scalar `0`, or by a handle whose
column contains a zero, raises the `ValueError` before any data is
written: the heap (all tables) and the receiver handle (its `columnName`
and dataset reference) are returned unchanged, and no new `Data` or
`Column` is produced — the result slot carries the error, not a handle. -/
theorem c2_div_zero_raises_before_write
    (h : Heap) (c oc : ColumnHandle) (rhs : List Val)
    (hr : readCol h oc.dataRef oc.columnName = .ok rhs)
    (hz : Val.num 0 ∈ rhs) :
    applyArith .div h c (.scalar 0) = (h, c, .error .valueError) ∧
    applyArith .div h c (.col oc) = (h, c, .error .valueError) := by
  constructor
  · apply applyArith_error
    simp [arithResult]
  · apply applyArith_error
    have hcz : rhs.contains (Val.num 0) = true := by simpa using hz
    simp only [arithResult, if_pos rfl, hr, hcz, Bool.true_eq_false, if_true]

/-- C2 witness: on a concrete heap, division by the scalar zero and by
the zero-containing column `z` both fail with the `ValueError`, leaving
heap and receiver untouched. -/
theorem c2_witness :
    applyArith ArithOp.div zHeap zHandle (Operand.scalar 0) =
      (zHeap, zHandle, .error .valueError) ∧
    applyArith ArithOp.div zHeap zHandle (Operand.col zZero) =
      (zHeap, zHandle, .error .valueError) :=
  c2_div_zero_raises_before_write zHeap zHandle zZero [Val.num 0] rfl
    (List.mem_singleton.mpr rfl)

/-- C3 counterexample: before `x + 1` is derived, the table of the shared
`Data` object has no column `x + 1`; after `exHandle + 1` runs, the
handle `exEarlier` — built earlier from the same `Data` object — sees
the new column through its own dataset reference, and no new `Data`
object was created (the heap still holds exactly one).  So an earlier
handle does NOT keep reading the pre-operation column set. -/
theorem c3_counterexample :
    exData.table.getCol "x + 1" = none ∧
    (applyArith ArithOp.add exHeap exHandle (Operand.scalar 1)).1.length = 1 ∧
    ((applyArith ArithOp.add exHeap exHandle (Operand.scalar 1)).1[exEarlier.dataRef]?.map
      (fun d => (d.table.getCol "x + 1").isSome)) = some true :=
  ⟨rfl, rfl, rfl⟩

/-- C3 amended: every successful arithmetic derivation mutates the shared
`Data` object in place rather than superseding it: no new `Data` object
is created (the heap length is unchanged), the object the receiver
references gets its table replaced by a clone with the derived column
written in, every other `Data` object is untouched, and any handle built
earlier from the same `Data` observes the post-operation column set —
the derived column is visible through it, while the values of every
other (pre-existing) column are unchanged. -/
theorem c3_arith_mutates_dataset_in_place
    (op : ArithOp) (h : Heap) (c : ColumnHandle) (other : Operand)
    (h' : Heap) (c' : ColumnHandle) (nc : ColumnHandle)
    (hs : applyArith op h c other = (h', c', .ok nc)) :
    h'.length = h.length ∧
    ∃ d name result,
      h[c.dataRef]? = some d ∧
      h'[c.dataRef]? = some { d with table := d.table.setCol name result } ∧
      (∀ j, j ≠ c.dataRef → h'[j]? = h[j]?) ∧
      (d.table.setCol name result).getCol name = some result ∧
      (∀ m, m ≠ name → (d.table.setCol name result).getCol m = d.table.getCol m) := by
  obtain ⟨d, name, result, hr, hd, hh, hc2, hnc⟩ :=
    applyArith_ok op h c other h' c' nc hs
  have hlt : c.dataRef < h.length := (List.getElem?_eq_some.mp hd).1
  refine ⟨by rw [hh]; simp, d, name, result, hd, ?_, ?_,
    getCol_setCol_self _ _ _, fun m hm => getCol_setCol_ne _ _ _ _ hm⟩
  · rw [hh]
    simp [List.getElem?_set_self, hlt]
  · intro j hj
    rw [hh]
    exact List.getElem?_set_ne hj.symm

/-- C3 amended witness: deriving `x + 1` on the example heap keeps the
heap at one `Data` object and rewires it to the appended-column table. -/
theorem c3_witness :
    (applyArith ArithOp.add exHeap exHandle (Operand.scalar 1)).1.length = exHeap.length ∧
    ∃ d name result,
      exHeap[exHandle.dataRef]? = some d ∧
      (applyArith ArithOp.add exHeap exHandle (Operand.scalar 1)).1[exHandle.dataRef]? =
        some { d with table := d.table.setCol name result } ∧
      (∀ j, j ≠ exHandle.dataRef →
        (applyArith ArithOp.add exHeap exHandle (Operand.scalar 1)).1[j]? = exHeap[j]?) ∧
      (d.table.setCol name result).getCol name = some result ∧
      (∀ m, m ≠ name → (d.table.setCol name result).getCol m = d.table.getCol m) :=
  c3_arith_mutates_dataset_in_place ArithOp.add exHeap exHandle (Operand.scalar 1)
    (applyArith ArithOp.add exHeap exHandle (Operand.scalar 1)).1
    (applyArith ArithOp.add exHeap exHandle (Operand.scalar 1)).2.1
    ⟨0, "x + 1", [Val.num (1 + 1), Val.num (2 + 1), Val.num (3 + 1)]⟩ rfl

/-- C9: after every successful binary arithmetic operation the receiver
handle itself is mutated: its `columnName` is reassigned to the
synthesized derived-column name (which differs from the original name),
its dataset reference is unchanged but that object's table now carries
the derived column, its cached `result` is left stale, and a subsequent
read through the receiver resolves the derived column's values. -/
theorem c9_receiver_handle_rebound
    (op : ArithOp) (h : Heap) (c : ColumnHandle) (other : Operand)
    (h' : Heap) (c' : ColumnHandle) (nc : ColumnHandle)
    (hs : applyArith op h c other = (h', c', .ok nc)) :
    ∃ d result,
      h[c.dataRef]? = some d ∧
      c'.dataRef = c.dataRef ∧
      c'.columnName = c.newColumnName (arithSym op) (some (operandName other)) ∧
      c'.columnName ≠ c.columnName ∧
      c'.result = c.result ∧
      h'[c.dataRef]? = some { d with table := d.table.setCol c'.columnName result } ∧
      readCol h' c'.dataRef c'.columnName = .ok result ∧
      nc = ⟨c.dataRef, c'.columnName, result⟩ := by
  obtain ⟨d, name, result, hr, hd, hh, hc2, hnc⟩ :=
    applyArith_ok op h c other h' c' nc hs
  obtain ⟨hname, -⟩ := arithResult_ok_parts op h c other name result hr
  have hlt : c.dataRef < h.length := (List.getElem?_eq_some.mp hd).1
  have hcn : c'.columnName = name := by rw [hc2]
  have hget : h'[c.dataRef]? = some { d with table := d.table.setCol name result } := by
    rw [hh]
    simp [List.getElem?_set_self, hlt]
  refine ⟨d, result, hd, by rw [hc2], by rw [hcn, hname], ?_, by rw [hc2], ?_, ?_, ?_⟩
  · rw [hcn, hname]
    exact newColumnName_ne c (arithSym op) (some (operandName other))
  · rw [hcn]
    exact hget
  · unfold readCol
    rw [show c'.dataRef = c.dataRef from by rw [hc2], hcn, hget]
    simp [getCol_setCol_self]
  · rw [hnc, hcn]

/-- C9 witness: multiplying the example handle by 2 rebinds its
`columnName` to `x * 2`, leaves its dataset reference in place, writes
the derived column into the shared table and makes subsequent reads
through the handle resolve the derived values. -/
theorem c9_witness :
    ∃ d result,
      exHeap[exHandle.dataRef]? = some d ∧
      ((applyArith ArithOp.mul exHeap exHandle (Operand.scalar 2)).2.1).dataRef =
        exHandle.dataRef ∧
      ((applyArith ArithOp.mul exHeap exHandle (Operand.scalar 2)).2.1).columnName =
        exHandle.newColumnName (arithSym ArithOp.mul)
          (some (operandName (Operand.scalar 2))) ∧
      ((applyArith ArithOp.mul exHeap exHandle (Operand.scalar 2)).2.1).columnName ≠
        exHandle.columnName ∧
      ((applyArith ArithOp.mul exHeap exHandle (Operand.scalar 2)).2.1).result =
        exHandle.result ∧
      (applyArith ArithOp.mul exHeap exHandle (Operand.scalar 2)).1[exHandle.dataRef]? =
        some { d with table := (d.table.setCol (((applyArith ArithOp.mul exHeap exHandle
          (Operand.scalar 2)).2.1).columnName) result) } ∧
      readCol (applyArith ArithOp.mul exHeap exHandle (Operand.scalar 2)).1
        ((applyArith ArithOp.mul exHeap exHandle (Operand.scalar 2)).2.1).dataRef
        ((applyArith ArithOp.mul exHeap exHandle (Operand.scalar 2)).2.1).columnName =
        .ok result ∧
      (⟨0, "x * 2", [Val.num (1 * 2), Val.num (2 * 2), Val.num (3 * 2)]⟩ : ColumnHandle) =
        ⟨exHandle.dataRef,
          ((applyArith ArithOp.mul exHeap exHandle (Operand.scalar 2)).2.1).columnName,
          result⟩ :=
  c9_receiver_handle_rebound ArithOp.mul exHeap exHandle (Operand.scalar 2)
    (applyArith ArithOp.mul exHeap exHandle (Operand.scalar 2)).1
    (applyArith ArithOp.mul exHeap exHandle (Operand.scalar 2)).2.1
    ⟨0, "x * 2", [Val.num (1 * 2), Val.num (2 * 2), Val.num (3 * 2)]⟩ rfl

/-- C4: comparing a handle against a scalar with `>` builds the boolean
row mask, filters the table rows by it (in original row order) and
returns a new `Data`: its row count is the number of rows whose value in
the handle's column exceeds the scalar, its primary-key list is an
order-preserving sub-sequence of the original with the primary-key
column and name preserved, and neither the heap nor the receiver handle
is modified (`gt` returns them unchanged). -/
theorem c4_gt_scalar_row_filter
    (h : Heap) (c : ColumnHandle) (s : Rat) (d : DataObj) (qs : List Rat)
    (pkcol : List Val)
    (hd : h[c.dataRef]? = some d)
    (hcol : d.table.getCol c.columnName = some (qs.map Val.num))
    (hu : d.table.uniform)
    (hpk : d.table.getCol d.primaryKey = some pkcol)
    (hstrip : stripVals pkcol = .ok d.primaryKeyList) :
    ∃ d', ColumnHandle.gt h c (Operand.scalar s) = (h, c, .ok d') ∧
      d'.primaryKey = d.primaryKey ∧
      d'.table = d.table.filterRows (qs.map (fun q => decide (s < q))) ∧
      d'.primaryKeyList = maskList d.primaryKeyList (qs.map (fun q => decide (s < q))) ∧
      d'.primaryKeyList.Sublist d.primaryKeyList ∧
      d'.table.nRows = (qs.filter (fun q => s < q)).length := by
  refine ⟨⟨d.table.filterRows (qs.map (fun q => decide (s < q))), d.primaryKey,
    maskList d.primaryKeyList (qs.map (fun q => decide (s < q)))⟩, ?_, rfl, rfl, rfl,
    maskList_sublist _ _, ?_⟩
  · have e1 : Data.from_table (d.table.filterRows (qs.map (fun q => decide (s < q))))
        d.primaryKey = .ok ⟨d.table.filterRows (qs.map (fun q => decide (s < q))),
          d.primaryKey, maskList d.primaryKeyList (qs.map (fun q => decide (s < q)))⟩ := by
      unfold Data.from_table
      simp only [getCol_filterRows d.table d.primaryKey pkcol
          (qs.map (fun q => decide (s < q))) hpk,
        stripVals_maskList pkcol d.primaryKeyList (qs.map (fun q => decide (s < q))) hstrip]
    have e0 : ColumnHandle.gt h c (Operand.scalar s) =
        (h, c, (ColumnHandle.gt h c (Operand.scalar s)).2.2) := rfl
    rw [e0]
    unfold ColumnHandle.gt
    simp only [hd, hcol, mapExcept_valGt_num s qs, e1]
  · have hm : (qs.map (fun q => decide (s < q))).length = d.table.nRows := by
      have := getCol_length_of_uniform d.table c.columnName (qs.map Val.num) hu hcol
      simpa using this
    show (d.table.filterRows (qs.map (fun q => decide (s < q)))).nRows = _
    rw [nRows_filterRows d.table (qs.map (fun q => decide (s < q))) hu hm]
    rw [List.countP_map]
    rw [List.countP_eq_length_filter]
    rfl

/-- C4 witness: filtering the example dataset by `x > 1` keeps the two
rows `b, c` — row count 2, primary keys a sub-sequence of the original,
primary-key name preserved, heap and receiver returned unchanged. -/
theorem c4_witness :
    ∃ d', ColumnHandle.gt exHeap exHandle (Operand.scalar 1) = (exHeap, exHandle, .ok d') ∧
      d'.primaryKey = exData.primaryKey ∧
      d'.table = exData.table.filterRows ([(1 : Rat), 2, 3].map (fun q => decide (1 < q))) ∧
      d'.primaryKeyList =
        maskList exData.primaryKeyList ([(1 : Rat), 2, 3].map (fun q => decide (1 < q))) ∧
      d'.primaryKeyList.Sublist exData.primaryKeyList ∧
      d'.table.nRows = ([(1 : Rat), 2, 3].filter (fun q => (1 : Rat) < q)).length :=
  c4_gt_scalar_row_filter exHeap exHandle 1 exData [1, 2, 3]
    [Val.str "a", Val.str "b", Val.str "c"] rfl rfl (by decide) rfl rfl

/-- C5: adding two handles whose columns hold equally many numeric values
yields a new handle whose materialized `result` is the element-wise sum:
at every row index it carries the sum of the two operands' materialized
values at that index (`zipWith` of the value lists). -/
theorem c5_add_columns_elementwise
    (h : Heap) (c1 c2 : ColumnHandle) (qs1 qs2 : List Rat)
    (h1 : readCol h c1.dataRef c1.columnName = .ok c1.result)
    (h2 : readCol h c2.dataRef c2.columnName = .ok c2.result)
    (e1 : c1.result = qs1.map Val.num)
    (e2 : c2.result = qs2.map Val.num)
    (hl : qs1.length = qs2.length) :
    ∃ h' c1', applyArith .add h c1 (.col c2) =
      (h', c1', .ok ⟨c1.dataRef, c1.newColumnName "+" (some c2.columnName),
        (List.zipWith (fun a b => a + b) qs1 qs2).map Val.num⟩) := by
  have h1' : readCol h c1.dataRef c1.columnName = .ok (qs1.map Val.num) := by
    rw [h1, e1]
  have h2' : readCol h c2.dataRef c2.columnName = .ok (qs2.map Val.num) := by
    rw [h2, e2]
  have hres : arithResult .add h c1 (.col c2) =
      .ok (c1.newColumnName "+" (some c2.columnName),
        (List.zipWith (fun a b => a + b) qs1 qs2).map Val.num) := by
    simp only [arithResult, h1', h2']
    rw [if_neg (by intro hcontra; cases hcontra)]
    have hz := zipExcept_valAdd_num qs1 qs2 hl
    simp only [show arithVal ArithOp.add = valAdd from rfl, hz]
    rfl
  obtain ⟨d, hd, hcolg⟩ := readCol_ok h c1.dataRef c1.columnName (qs1.map Val.num) h1'
  refine ⟨h.set c1.dataRef { d with table := (d.table.setCol (c1.newColumnName "+" (some c2.columnName)) ((List.zipWith (fun a b => a + b) qs1 qs2).map Val.num)) }, { c1 with columnName := (c1.newColumnName "+" (some c2.columnName)) }, ?_⟩
  unfold applyArith
  rw [hres]
  unfold finishArith ColumnHandle.updatedData
  rw [hd]

/-- C5 witness: adding the example handle to itself materializes
`[1 + 1, 2 + 2, 3 + 3]` under the synthesized name `x + x`. -/
theorem c5_witness :
    ∃ h' c1', applyArith .add exHeap exHandle (.col exHandle) =
      (h', c1', .ok ⟨exHandle.dataRef, exHandle.newColumnName "+" (some exHandle.columnName),
        (List.zipWith (fun a b => a + b) [(1 : Rat), 2, 3] [(1 : Rat), 2, 3]).map Val.num⟩) :=
  c5_add_columns_elementwise exHeap exHandle exHandle [1, 2, 3] [1, 2, 3]
    rfl rfl rfl rfl rfl

/-- C6: the length of a dataset's primary-key list equals the row count
of its table, at construction and across every operation: (1)
`Data.from_table` on a uniform table establishes the invariant; (2) a
successful arithmetic derivation preserves it (and table uniformity) at
the mutated heap entry and leaves every other entry untouched; (3) a
successful comparison row-filter returns a dataset satisfying it. -/
theorem c6_primary_key_length_invariant :
    (∀ (t : Table) (pk : String) (d : DataObj),
      t.uniform → Data.from_table t pk = .ok d → DataInv d) ∧
    (∀ (op : ArithOp) (h : Heap) (c : ColumnHandle) (other : Operand)
      (h' : Heap) (c' : ColumnHandle) (nc : ColumnHandle) (d : DataObj),
      h[c.dataRef]? = some d → DataInv d → d.table.uniform →
      applyArith op h c other = (h', c', .ok nc) →
      (∀ d', h'[c.dataRef]? = some d' → DataInv d' ∧ d'.table.uniform) ∧
      (∀ j, j ≠ c.dataRef → h'[j]? = h[j]?)) ∧
    (∀ (h : Heap) (c : ColumnHandle) (other : Operand) (d dres : DataObj),
      h[c.dataRef]? = some d → d.table.uniform →
      (ColumnHandle.gt h c other).2.2 = .ok dres → DataInv dres) := by
  refine ⟨fun t pk d hu hf => (from_table_DataInv t pk d hu hf).1, ?_, ?_⟩
  · intro op h c other h' c' nc d hd hinv hu hs
    obtain ⟨d0, name, result, hr, hd0, hh, hc2, hnc⟩ :=
      applyArith_ok op h c other h' c' nc hs
    have hdd : d0 = d := by
      rw [hd0] at hd
      exact (Option.some.injEq _ _ ▸ hd)
    subst hdd
    obtain ⟨hname, lhs, hread, hlen⟩ := arithResult_ok_parts op h c other name result hr
    obtain ⟨d1, hd1, hcol1⟩ := readCol_ok h c.dataRef c.columnName lhs hread
    have hdd1 : d1 = d0 := by
      rw [hd1] at hd0
      exact (Option.some.injEq _ _ ▸ hd0)
    subst hdd1
    have hlt : c.dataRef < h.length := (List.getElem?_eq_some.mp hd1).1
    have hrl : result.length = d1.table.nRows := by
      rw [hlen]
      exact getCol_length_of_uniform d1.table c.columnName lhs hu hcol1
    constructor
    · intro d' hd'
      rw [hh] at hd'
      rw [List.getElem?_set_self hlt] at hd'
      have hde : d' = { d1 with table := d1.table.setCol name result } :=
        (Option.some.injEq _ _ ▸ hd').symm
      subst hde
      constructor
      · unfold DataInv
        unfold DataInv at hinv
        simp only
        rw [nRows_setCol d1.table name result hrl]
        exact hinv
      · exact uniform_setCol d1.table name result hu hrl
    · intro j hj
      rw [hh]
      exact List.getElem?_set_ne hj.symm
  · intro h c other d dres hd hu hres
    obtain ⟨d0, lhs, mask, hd0, hcol, hmlen, hft⟩ := gt_ok_parts h c other dres hres
    have hdd : d0 = d := by
      rw [hd0] at hd
      exact (Option.some.injEq _ _ ▸ hd)
    subst hdd
    have hm : mask.length = d0.table.nRows := by
      rw [hmlen]
      exact getCol_length_of_uniform d0.table c.columnName lhs hu hcol
    exact (from_table_DataInv _ _ _ (uniform_filterRows d0.table mask hu hm) hft).1

/-- C6 witness: `from_table` on the uniform example table establishes the
invariant for `exData` — three primary keys for three rows. -/
theorem c6_witness : DataInv exData :=
  c6_primary_key_length_invariant.1 exTable "pk" exData (by decide) rfl

end Shastra
